import Mathlib

/-!
Verification development for the Plan-RAG repository.

Shallow embedding of the numeric parsing/matching layer (`src/metrics.py`,
`src/numeric_tools.py`), the plan graph and heuristic planner
(`src/planrag.py`), the execution loop (`src/executor.py`), the engine glue
(`src/graph.py`), and the reciprocal-rank-fusion step of the hybrid
retriever (`src/hybrid_retrieval.py`).

Python floats are modelled by exact rationals (`ℚ`), with the value
`float("inf")` represented by a dedicated constructor where the source can
produce it.  Python strings are modelled by Lean `String` / `List Char`
(the inputs of interest are ASCII).  Python dicts are modelled by
association lists in insertion order, and Python's stable `sorted` by
`List.insertionSort` (which is stable).
-/

set_option allowUnsafeReducibility true

attribute [local semireducible] Rat.mul Rat.add Rat.sub Rat.inv Rat.ofScientific

namespace PlanRAG

/-! ### Python string primitives -/

/-- Characters removed by Python `str.strip()` (ASCII fragment). -/
def pyIsSpace (c : Char) : Bool :=
  c = ' ' || c = '\t' || c = '\n' || c = '\r' || c = '\x0b' || c = '\x0c'

/-- Python `str.strip()` on a list of characters. -/
def pyStrip (l : List Char) : List Char :=
  ((l.dropWhile pyIsSpace).reverse.dropWhile pyIsSpace).reverse

/-- Python `str.replace(c, "")` for a single-character pattern. -/
def removeChar (c : Char) (l : List Char) : List Char :=
  l.filter (fun d => d ≠ c)

/-- Python `str.endswith(c)` for a single character. -/
def endsWithChar (c : Char) (l : List Char) : Bool :=
  match l.getLast? with
  | some d => d = c
  | none => false

/-- Python `str.startswith(c)` for a single character. -/
def startsWithChar (c : Char) (l : List Char) : Bool :=
  match l.head? with
  | some d => d = c
  | none => false

/-- Value of a list of ASCII digits read in base 10. -/
def digitsToNat (ds : List Char) : ℕ :=
  ds.foldl (fun a c => 10 * a + (c.toNat - 48)) 0

/-- Python `float(s)` on decimal literals: optional surrounding whitespace,
optional sign, digits with an optional fractional part, optional exponent.
The special forms `inf`/`nan` and underscore separators do not occur in the
strings this development evaluates and are not modelled. -/
def pyFloat? (l : List Char) : Option ℚ :=
  let t := pyStrip l
  let (sgn, t1) : ℚ × List Char :=
    match t with
    | '+' :: r => (1, r)
    | '-' :: r => (-1, r)
    | r => (1, r)
  let ip := t1.takeWhile Char.isDigit
  let t2 := t1.drop ip.length
  let (fp, t3) : List Char × List Char :=
    match t2 with
    | '.' :: r => (r.takeWhile Char.isDigit, r.drop (r.takeWhile Char.isDigit).length)
    | r => ([], r)
  if ip = [] ∧ fp = [] then none
  else
    let (ex, t4) : Option ℤ × List Char :=
      match t3 with
      | 'e' :: r => expPart r
      | 'E' :: r => expPart r
      | r => (some 0, r)
    match ex with
    | none => none
    | some e =>
      if t4 = [] then
        some (sgn * (digitsToNat ip + (digitsToNat fp : ℚ) / 10 ^ fp.length) * 10 ^ e)
      else none
where
  /-- Exponent suffix after `e`/`E`: optional sign then at least one digit. -/
  expPart (r : List Char) : Option ℤ × List Char :=
    let (esgn, r1) : ℤ × List Char :=
      match r with
      | '+' :: s => (1, s)
      | '-' :: s => (-1, s)
      | s => (1, s)
    let ds := r1.takeWhile Char.isDigit
    if ds = [] then (none, r)
    else (some (esgn * digitsToNat ds), r1.drop ds.length)

/-! ### `src/metrics.py` -/

/-- `_to_float` from `src/metrics.py`: strip whitespace, delete `,` and `$`,
return `None` on empty, strip a trailing `%` (without rescaling), turn a
parenthesized token into a negated one, then try `float`. -/
def to_float (s : String) : Option ℚ :=
  let t := removeChar '$' (removeChar ',' (pyStrip s.data))
  if t = [] then none
  else
    let t1 := if endsWithChar '%' t then pyStrip t.dropLast else t
    let t2 :=
      if startsWithChar '(' t1 ∧ endsWithChar ')' t1 then
        '-' :: (t1.drop 1).dropLast
      else t1
    pyFloat? t2

/-- `numeric_match` from `src/metrics.py` with explicit tolerances. -/
def numeric_match (pred gold : String) (absTol relTol : ℚ) : Bool :=
  match to_float pred, to_float gold with
  | some p, some g =>
    if |p - g| ≤ absTol then true
    else decide (|p - g| / max (1 / 10 ^ 9) |g| ≤ relTol)
  | _, _ =>
    (pyStrip pred.data).map Char.toLower = (pyStrip gold.data).map Char.toLower

/-- `numeric_match` at its default tolerances `abs_tol=1e-4`, `rel_tol=0.01`. -/
def numeric_matchD (pred gold : String) : Bool :=
  numeric_match pred gold (1 / 10 ^ 4) (1 / 100)

example : to_float "10%" = some 10 := by decide
example : to_float "0.10" = some (1 / 10) := by decide
example : to_float "$1,234" = some 1234 := by decide
example : to_float "(1,234.50)" = some (-(2469 / 2)) := by decide
example : numeric_matchD "10%" "0.10" = false := by decide
example : numeric_matchD "10%" "10" = true := by decide
example : numeric_matchD "$1,234" "1234.0" = true := by decide
example : numeric_matchD "foo" "bar" = false := by decide
example : numeric_matchD "Foo" "foO" = true := by decide

/-! ### `src/numeric_tools.py`: the `_NUM` regex

`_NUM = [-+]?\(?\d{1,3}(?:,\d{3})*(?:\.\d+)?\)?%?|\d+(?:\.\d+)?%?`.
At any position where the second alternative matches (a leading digit), the
first alternative matches as well and is preferred, so `search` is the
leftmost match of the first alternative.  All quantifiers after the `\d{1,3}`
core are optional or starred over patterns whose failure cannot force
backtracking into the core, so greedy left-to-right consumption is exact. -/

/-- The greedy `\d{1,3}` core: up to three leading digits. -/
def grabDigits13 (l : List Char) : List Char × List Char :=
  let ds := (l.takeWhile Char.isDigit).take 3
  (ds, l.drop ds.length)

/-- The starred thousands groups `(?:,\d{3})*`. -/
def grabGroups (l : List Char) : List Char × List Char :=
  match l with
  | ',' :: a :: b :: c :: rest =>
    if a.isDigit ∧ b.isDigit ∧ c.isDigit then
      let (g, r) := grabGroups rest
      (',' :: a :: b :: c :: g, r)
    else ([], l)
  | _ => ([], l)

/-- The optional fraction `(?:\.\d+)?`. -/
def grabFrac (l : List Char) : List Char × List Char :=
  match l with
  | '.' :: rest =>
    let ds := rest.takeWhile Char.isDigit
    if ds = [] then ([], l) else ('.' :: ds, rest.drop ds.length)
  | _ => ([], l)

/-- A match attempt of `_NUM` anchored at the head of `l`; returns the token:
optional sign, optional opening parenthesis, the mandatory digit core, then
the optional thousands groups, fraction, closing parenthesis and percent. -/
def matchAt (l : List Char) : Option (List Char) :=
  let hasSign := startsWithChar '+' l || startsWithChar '-' l
  let sg : List Char := if hasSign then l.take 1 else []
  let l1 : List Char := if hasSign then l.drop 1 else l
  let pr : List Char := if startsWithChar '(' l1 then l1.take 1 else []
  let l2 : List Char := if startsWithChar '(' l1 then l1.drop 1 else l1
  let ds := (grabDigits13 l2).1
  let l3 := (grabDigits13 l2).2
  if ds = [] then none
  else
    let gs := (grabGroups l3).1
    let l4 := (grabGroups l3).2
    let fr := (grabFrac l4).1
    let l5 := (grabFrac l4).2
    let cp : List Char := if startsWithChar ')' l5 then l5.take 1 else []
    let l6 : List Char := if startsWithChar ')' l5 then l5.drop 1 else l5
    let pc : List Char := if startsWithChar '%' l6 then l6.take 1 else []
    some (sg ++ pr ++ ds ++ gs ++ fr ++ cp ++ pc)

/-- `_NUM.search`: the leftmost token the pattern matches. -/
def searchNum : List Char → Option (List Char)
  | [] => none
  | c :: rest =>
    match matchAt (c :: rest) with
    | some t => some t
    | none => searchNum rest

/-- `parse_number` from `src/numeric_tools.py`. -/
def parse_number (s : String) : Option ℚ :=
  match searchNum s.data with
  | none => none
  | some tok =>
    let (neg, t1) : Bool × List Char :=
      if startsWithChar '(' tok ∧ endsWithChar ')' tok then
        (true, (tok.drop 1).dropLast)
      else (false, tok)
    let t2 := pyStrip (removeChar '$' (removeChar ',' t1))
    let (isPct, t3) : Bool × List Char :=
      if endsWithChar '%' t2 then (true, pyStrip t2.dropLast) else (false, t2)
    match pyFloat? t3 with
    | none => none
    | some v =>
      let v1 := if isPct then v / 100 else v
      some (if neg then -v1 else v1)

example : parse_number "(1,234.50)" = some (-1234.5) := by decide
example : parse_number "12.5%" = some 0.125 := by decide
example : parse_number "$1,234" = some 1234 := by decide
example : parse_number "about -12 things" = some (-12) := by decide
example : parse_number "no numbers here" = none := by decide
example : parse_number "12345" = some 123 := by decide

/-! ### `src/numeric_tools.py`: `compute_change` and `format_change` -/

/-- A Python float that is either finite or `float("inf")` (the only
non-finite value `compute_change` can produce). -/
inductive PyF where
  | fin : ℚ → PyF
  | inf : PyF
deriving DecidableEq

/-- `compute_change`: `delta = curr - prev`, and `pct = delta/prev` guarded by
`abs(prev) > 1e-12`, with `float("inf")` on the near-zero branch. -/
def compute_change (curr prev : ℚ) : ℚ × PyF :=
  let delta := curr - prev
  (delta, if (1 : ℚ) / 10 ^ 12 < |prev| then PyF.fin (delta / prev) else PyF.inf)

/-- Floor of a rational as used by the round-half-even helper. -/
def floorQ (q : ℚ) : ℤ := Int.ediv q.num q.den

/-- Round half to even, the rounding of Python float formatting (applied here
to the exact decimal value). -/
def rhe (q : ℚ) : ℤ :=
  let f := floorQ q
  let r := q - (f : ℚ)
  if r < 1 / 2 then f
  else if (1 : ℚ) / 2 < r then f + 1
  else if f % 2 = 0 then f else f + 1

/-- Number of decimal digits of `n` (1 for 0). -/
def digCount (n : ℕ) : ℕ := (Nat.toDigits 10 n).length

/-- `⌊log10 y⌋` for `y > 0`, from the digit counts of numerator and
denominator. -/
def decExp (y : ℚ) : ℤ :=
  let e0 : ℤ := (digCount y.num.toNat : ℤ) - (digCount y.den : ℤ)
  if (10 : ℚ) ^ e0 ≤ y then e0 else e0 - 1

/-- Drop trailing `'0'` characters. -/
def stripZeros (l : List Char) : List Char :=
  (l.reverse.dropWhile (fun c => c = '0')).reverse

/-- Two-digit zero-padded decimal rendering (for exponents). -/
def pad2 (n : ℕ) : String := if n < 10 then "0" ++ toString n else toString n

/-- Python `format(x, ".2f")` on the exact decimal value. -/
def fmtF2 (x : ℚ) : String :=
  let n := (rhe (|x| * 100)).toNat
  let ip := n / 100
  let fp := n % 100
  (if x < 0 then "-" else "") ++ toString ip ++ "." ++ pad2 fp

/-- Python `format(x, ".4g")` on the exact decimal value: four significant
digits, fixed notation for exponents in `[-4, 4)`, scientific otherwise,
trailing zeros stripped. -/
def fmtG4 (x : ℚ) : String :=
  if x = 0 then "0"
  else
    let y := |x|
    let e1 := decExp y
    let r0 := rhe (y * 10 ^ ((3 : ℤ) - e1))
    let (r, e) : ℤ × ℤ := if 10000 ≤ r0 then (Int.ediv r0 10, e1 + 1) else (r0, e1)
    let ds := (toString r.toNat).data
    let body : List Char :=
      if -4 ≤ e ∧ e < 4 then
        if 0 ≤ e then
          let ip := ds.take (e.toNat + 1)
          let fp := stripZeros (ds.drop (e.toNat + 1))
          ip ++ (if fp = [] then [] else '.' :: fp)
        else
          '0' :: '.' :: (List.replicate ((-e).toNat - 1) '0' ++ stripZeros ds)
      else
        let m := stripZeros (ds.drop 1)
        (ds.take 1 ++ (if m = [] then [] else '.' :: m)) ++
          ('e' :: (if e < 0 then '-' else '+') :: (pad2 e.natAbs).data)
    (if x < 0 then "-" else "") ++ String.mk body

/-- `format_change`: `f"{delta:.4g} ({pct*100:.2f}%)"`. -/
def format_change (delta : ℚ) (pct : PyF) : String :=
  fmtG4 delta ++ " (" ++
    (match pct with
     | PyF.fin q => fmtF2 (q * 100)
     | PyF.inf => "inf") ++ "%)"

example : fmtG4 20 = "20" := by decide
example : fmtG4 (-1234.5) = "-1234" := by decide
example : fmtG4 0.0005 = "0.0005" := by decide
example : fmtG4 0.00005 = "5e-05" := by decide
example : fmtG4 12345 = "1.234e+04" := by decide
example : fmtG4 9999.6 = "1e+04" := by decide
example : fmtG4 0.25 = "0.25" := by decide
example : fmtG4 100 = "100" := by decide
example : fmtG4 3.14159 = "3.142" := by decide
example : fmtG4 1000000 = "1e+06" := by decide
example : fmtF2 25 = "25.00" := by decide
example : fmtF2 12.5 = "12.50" := by decide
example : fmtF2 (-0.001) = "-0.00" := by decide
example : fmtF2 33.333333 = "33.33" := by decide
example : format_change 20 (PyF.fin 0.25) = "20 (25.00%)" := by decide
example : format_change 20 PyF.inf = "20 (inf%)" := by decide

/-! ### Python dicts as association lists -/

/-- Lookup in a dict modelled as an association list (first hit). -/
def lookupA (l : List (String × String)) (k : String) : Option String :=
  match l with
  | [] => none
  | kv :: rest => if kv.1 = k then some kv.2 else lookupA rest k

/-- The keys of a dict, in insertion order. -/
def keysOf (l : List (String × String)) : List String := l.map (·.1)

/-- Assignment to an existing key: the entry keeps its position. -/
def setAssoc (l : List (String × String)) (k v : String) : List (String × String) :=
  l.map (fun kv => if kv.1 = k then (kv.1, v) else kv)

/-- Python `str.startswith(pre)`. -/
def pyStartsWith (pre s : String) : Bool := pre.data.isPrefixOf s.data

/-- Python `str.split(".")`: split on every dot, keeping empty pieces. -/
def splitDot : List Char → List (List Char)
  | [] => [[]]
  | '.' :: rest => [] :: splitDot rest
  | c :: rest =>
    match splitDot rest with
    | g :: gs => (c :: g) :: gs
    | [] => [[c]]

/-- Python `int(s)`: optional whitespace and sign, then at least one digit
(underscore separators are not modelled). -/
def pyInt? (l : List Char) : Option ℤ :=
  let t := pyStrip l
  let (sgn, t1) : ℤ × List Char :=
    match t with
    | '+' :: r => (1, r)
    | '-' :: r => (-1, r)
    | r => (1, r)
  if t1 ≠ [] ∧ t1.all Char.isDigit then some (sgn * digitsToNat t1) else none

/-- `tuple(int(p) for p in x.split("."))`, the sort key of
`maybe_compute_change`; `none` models the `ValueError` raised by `int`. -/
def intPath (s : String) : Option (List ℤ) := (splitDot s.data).mapM pyInt?

/-- Lexicographic order on integer tuples, as Python compares tuples
(a proper prefix sorts first). -/
def zlexLe : List ℤ → List ℤ → Bool
  | [], _ => true
  | _ :: _, [] => false
  | x :: xs, y :: ys => if x < y then true else if y < x then false else zlexLe xs ys

/-- Key order for the stable sort in `maybe_compute_change`. -/
def pathLe (p q : List ℤ × String) : Prop := zlexLe p.1 q.1 = true

instance : DecidableRel pathLe := fun _ _ => inferInstanceAs (Decidable (_ = true))

/-- The `2.`-keys of `answers` sorted by dot-separated integer path;
`none` models the `ValueError` on a key whose path is not all integers. -/
def metricKeysSorted (answers : List (String × String)) : Option (List String) :=
  match ((keysOf answers).filter (fun k => pyStartsWith "2." k)).mapM
      (fun k => (intPath k).map (fun p => (p, k))) with
  | none => none
  | some pairs => some ((List.insertionSort pathLe pairs).map (·.2))

/-- `maybe_compute_change` from `src/numeric_tools.py`: requires `"3.1"` and
at least two `2.*` keys whose first two values parse; `Except.error` models
the uncaught `ValueError` from the sort key. -/
def maybe_compute_change (answers : List (String × String)) :
    Except Unit (Option String) :=
  if (lookupA answers "3.1").isNone then Except.ok none
  else
    match metricKeysSorted answers with
    | none => Except.error ()
    | some ks =>
      match ks with
      | k0 :: k1 :: _ =>
        match parse_number ((lookupA answers k0).getD ""),
            parse_number ((lookupA answers k1).getD "") with
        | some a, some b =>
          let c := compute_change a b
          Except.ok (some (format_change c.1 c.2))
        | _, _ => Except.ok none
      | _ => Except.ok none

/-- `compute_node` from `src/graph.py`, restricted to its effect on the
`answers` dict: overwrite `"3.1"` when `maybe_compute_change` returns a
truthy (non-empty) string. -/
def compute_node (answers : List (String × String)) :
    Except Unit (List (String × String)) :=
  match maybe_compute_change answers with
  | Except.error e => Except.error e
  | Except.ok none => Except.ok answers
  | Except.ok (some s) =>
    Except.ok (if s = "" then answers else setAssoc answers "3.1" s)

/-- `validate_node` from `src/graph.py`, restricted to its effect on the
final answer: the validator result is a dict `res`, and the final answer is
replaced exactly when `res.get("verdict") == "fail"` and `res.get("corrected")`
is truthy (a non-empty string). -/
def validate_node (res : List (String × String)) (finalAnswer : String) : String :=
  if lookupA res "verdict" = some "fail" then
    match lookupA res "corrected" with
    | some c => if c = "" then finalAnswer else c
    | none => finalAnswer
  else finalAnswer

example : compute_node [("1.1", "g"), ("2.1", "100"), ("2.2", "80"), ("3.1", "x")] =
    Except.ok [("1.1", "g"), ("2.1", "100"), ("2.2", "80"), ("3.1", "20 (25.00%)")] := rfl
example : compute_node [("2.1", "100"), ("2.2", "80")] =
    Except.ok [("2.1", "100"), ("2.2", "80")] := rfl
example : compute_node [("2.1", "100"), ("3.1", "x")] =
    Except.ok [("2.1", "100"), ("3.1", "x")] := rfl
example : compute_node [("2.1", "abc"), ("2.2", "80"), ("3.1", "x")] =
    Except.ok [("2.1", "abc"), ("2.2", "80"), ("3.1", "x")] := rfl
example : compute_node [("2.x", "100"), ("2.2", "80"), ("3.1", "x")] =
    Except.error () := rfl
example : metricKeysSorted [("2.10", "a"), ("2.9", "b"), ("3.1", "c")] =
    some ["2.9", "2.10"] := by decide
example : validate_node [("verdict", "fail"), ("corrected", "X")] "orig" = "X" := by
  decide
example : validate_node [("verdict", "fail"), ("corrected", "")] "orig" = "orig" := by
  decide
example : validate_node [("verdict", "pass"), ("corrected", "X")] "orig" = "orig" := by
  decide

/-! ### `src/planrag.py`: `PlanNode`, `PlanDAG` -/

/-- One DAG node: atomic subquery (`PlanNode` in `src/planrag.py`). -/
structure PlanNode where
  id : String
  text : String
  depth : ℤ
  depends_on : List String
deriving DecidableEq

/-- Lightweight DAG container (`PlanDAG`): a dict from node id to node,
modelled as an association list in insertion order. -/
structure PlanDAG where
  nodes : List (String × PlanNode)
deriving DecidableEq

/-- `self.nodes.values()` in iteration order. -/
def valuesOf (g : PlanDAG) : List PlanNode := g.nodes.map (·.2)

/-- Python string comparison: lexicographic on code points, a proper prefix
sorting first. -/
def strLeB : List Char → List Char → Bool
  | [], _ => true
  | _ :: _, [] => false
  | a :: xs, b :: ys => if a < b then true else if b < a then false else strLeB xs ys

/-- The sort key `(n.depth, n.id)` of `PlanDAG.ready`, as a relation. -/
def nodeLe (n m : PlanNode) : Prop :=
  n.depth < m.depth ∨ (n.depth = m.depth ∧ strLeB n.id.data m.id.data = true)

instance : DecidableRel nodeLe := fun _ _ => inferInstanceAs (Decidable (_ ∨ _))

/-- The readiness filter of `PlanDAG.ready`: not answered, all parents
answered. -/
def readyPred (answered : List String) (n : PlanNode) : Bool :=
  !(answered.contains n.id) && n.depends_on.all (fun p => answered.contains p)

/-- `PlanDAG.ready`: nodes whose parents are all answered (and not answered
themselves), sorted by `(depth, id)`. -/
def ready (g : PlanDAG) (answered : List String) : List PlanNode :=
  List.insertionSort nodeLe ((valuesOf g).filter (readyPred answered))

/-- `PlanDAG.max_depth`: `max(depths, default=0)`. -/
def max_depth (g : PlanDAG) : ℤ :=
  match (valuesOf g).map (·.depth) with
  | [] => 0
  | d :: ds => ds.foldl max d

/-! ### The depth-batched execution loop (`PlanRAGRunner.run`,
`src/executor.py`; the same loop drives `make_batch_node` in
`src/graph.py`).  Only the evolution of the answered id set matters to the
claims, so the loop is embedded as a transformer of that set. -/

/-- One iteration: compute `ready`, take the batch at the minimum depth
present, record its node ids as answered. -/
def batchIds (g : PlanDAG) (answered : List String) : List String :=
  match ready g answered with
  | [] => []
  | n :: rest =>
    let d := rest.foldl (fun m k => min m k.depth) n.depth
    ((n :: rest).filter (fun k => k.depth = d)).map (·.id)

/-- The answered set after one loop iteration. -/
def stepAnswered (g : PlanDAG) (answered : List String) : List String :=
  answered ++ batchIds g answered

/-- The `while True` loop of `PlanRAGRunner.run`, fuel-bounded: stops early
when `ready` is empty. -/
def loopAnswered (g : PlanDAG) : ℕ → List String → List String
  | 0, answered => answered
  | k + 1, answered =>
    if ready g answered = [] then answered
    else loopAnswered g k (stepAnswered g answered)

/-! ### `heuristic_plan` (`src/planrag.py`) -/

/-- Substring containment, Python's `needle in hay`. -/
def containsSub (hay needle : List Char) : Bool :=
  hay.tails.any (fun t => needle.isPrefixOf t)

/-- `any(k in q for k in ks)`. -/
def containsAny (q : String) (ks : List String) : Bool :=
  ks.any (fun k => containsSub q.data k.data)

/-- The grounding node `"1.1"`. -/
def groundingNode : String × PlanNode :=
  ("1.1",
   { id := "1.1",
     text := "Identify the entity and fiscal period(s) referenced in the question.",
     depth := 1, depends_on := [] })

/-- A depth-2 metric node `"2.<j>"`. -/
def metricNode (j : ℕ) (m : String) : String × PlanNode :=
  ("2." ++ toString j,
   { id := "2." ++ toString j,
     text := "Retrieve the value for " ++ m ++ " for the identified period(s).",
     depth := 2, depends_on := ["1.1"] })

/-- The body of `heuristic_plan` as a function of its four keyword tests:
presence of a net-income keyword, a revenue keyword, a margin keyword, and a
change keyword. -/
def heuristicCore (b1 b2 b3 bc : Bool) : PlanDAG :=
  let metrics : List String :=
    (if b1 then ["net income"] else []) ++
    (if b2 then ["revenue"] else []) ++
    (if b3 then ["margin"] else [])
  let metrics :=
    if metrics = [] then ["the requested financial metric in the question"] else metrics
  let base := groundingNode :: (List.enumFrom 1 metrics).map (fun jm => metricNode jm.1 jm.2)
  let nodes :=
    if bc then
      base ++
        [("3.1",
          { id := "3.1",
            text := "Compute absolute and percentage change vs prior comparable period for the requested metric(s).",
            depth := 3,
            depends_on := (base.map (·.1)).filter (fun k => pyStartsWith "2." k) })]
    else base
  ⟨nodes⟩

/-- `heuristic_plan` from `src/planrag.py`. -/
def heuristic_plan (question : String) : PlanDAG :=
  let q : String := ⟨question.data.map Char.toLower⟩
  heuristicCore
    (containsAny q ["net income", "profit", "earnings"])
    (containsAny q ["revenue", "sales", "top line"])
    (containsAny q ["gross margin", "operating margin", "margin"])
    (containsAny q ["yoy", "year over year", "change", "difference", "delta",
      "increase", "decrease"])

example :
    (heuristic_plan "What was the year-over-year change in revenue?").nodes.map (·.1) =
      ["1.1", "2.1", "3.1"] := by decide
example :
    (heuristic_plan "What was the change in revenue and margin?").nodes.map (·.1) =
      ["1.1", "2.1", "2.2", "3.1"] := by decide
example : (heuristic_plan "hello").nodes.map (·.1) = ["1.1", "2.1"] := by decide

/-! ### Reciprocal Rank Fusion (`HybridRetriever.query`,
`src/hybrid_retrieval.py`).  The fused score dict is modelled as a total map
with default `0.0` (`fused.get(ci, 0.0)`); the two rank loops add
`1/(60+rank)` per hit, keyed by resolved chunk index. -/

/-- `rrf(rank)`: the reciprocal-rank contribution `1.0 / (60 + rank)`. -/
def rrf (rank : ℕ) : ℚ := 1 / (60 + rank)

/-- One ranked list folded into the fused score map, ranks starting at
`start`. -/
def addRanks : List ℕ → ℕ → (ℕ → ℚ) → ℕ → ℚ
  | [], _, fused => fused
  | ci :: rest, start, fused =>
    addRanks rest (start + 1) (fun x => if x = ci then fused ci + rrf start else fused x)

/-- The fused score map after both loops of `HybridRetriever.query`
(dense hits first, then sparse hits, ranks 1-based in each list). -/
def fusedScore (dense sparse : List ℕ) : ℕ → ℚ :=
  addRanks sparse 1 (addRanks dense 1 (fun _ => 0))

/-- The total reciprocal-rank contribution of chunk `ci` in one ranked list
starting at rank `start`. -/
def contribSum (ci : ℕ) : List ℕ → ℕ → ℚ
  | [], _ => 0
  | c :: rest, start =>
    (if c = ci then rrf start else 0) + contribSum ci rest (start + 1)

example : fusedScore [7] [7] 7 = 2 / 61 := by decide
example : fusedScore [7] [3] 7 = 1 / 61 := by decide
example : fusedScore [7, 3] [3, 7] 7 = 1 / 61 + 1 / 62 := by decide

/-! ### `is_complete` (`src/graph.py`) -/

/-- `is_complete`: false when there is no dag or it has no nodes, else the
key-set inclusion test. -/
def is_complete (dag : Option PlanDAG) (answers : List (String × String)) : Bool :=
  match dag with
  | none => false
  | some g =>
    if g.nodes = [] then false
    else (g.nodes.map (·.1)).all (fun k => (keysOf answers).contains k)

example : is_complete none [] = false := by decide
example : is_complete (some ⟨[]⟩) [] = false := by decide
example : is_complete (some ⟨[groundingNode]⟩) [("1.1", "x")] = true := by decide
example : is_complete (some ⟨[groundingNode]⟩) [("2.1", "x")] = false := by decide

/-- A two-node plan graph that is acyclic (its dependency edges admit a
topological ranking) but places a dependent node at the same depth as its
parent. -/
def flatDAG : PlanDAG :=
  ⟨[("A", { id := "A", text := "", depth := 1, depends_on := [] }),
    ("B", { id := "B", text := "", depth := 1, depends_on := ["A"] })]⟩

/-- A small depth-consistent plan graph used to instantiate theorems. -/
def chainDAG : PlanDAG :=
  ⟨[("1.1", { id := "1.1", text := "", depth := 1, depends_on := [] }),
    ("2.1", { id := "2.1", text := "", depth := 2, depends_on := ["1.1"] }),
    ("2.2", { id := "2.2", text := "", depth := 2, depends_on := ["1.1"] }),
    ("3.1", { id := "3.1", text := "", depth := 3, depends_on := ["2.1", "2.2"] })]⟩

/-! ### Helper lemmas -/

theorem strLeB_total : ∀ xs ys : List Char, strLeB xs ys = true ∨ strLeB ys xs = true := by
  intro xs
  induction xs with
  | nil => intro ys; left; rfl
  | cons a xs ih =>
    intro ys
    cases ys with
    | nil => right; rfl
    | cons b ys =>
      rcases lt_trichotomy a b with h | h | h
      · left; simp [strLeB, h]
      · subst h
        rcases ih ys with h2 | h2
        · left; simpa [strLeB, lt_irrefl] using h2
        · right; simpa [strLeB, lt_irrefl] using h2
      · right; simp [strLeB, h]

theorem strLeB_trans : ∀ xs ys zs : List Char,
    strLeB xs ys = true → strLeB ys zs = true → strLeB xs zs = true := by
  intro xs
  induction xs with
  | nil => intro ys zs _ _; rfl
  | cons a xs ih =>
    intro ys zs hxy hyz
    cases ys with
    | nil => simp [strLeB] at hxy
    | cons b ys =>
      cases zs with
      | nil => simp [strLeB] at hyz
      | cons c zs =>
        simp only [strLeB] at hxy hyz ⊢
        rcases lt_trichotomy a b with hab | hab | hab
        · rcases lt_trichotomy b c with hbc | hbc | hbc
          · simp [lt_trans hab hbc]
          · subst hbc; simp [hab]
          · rw [if_neg (lt_asymm hbc), if_pos hbc] at hyz
            exact absurd hyz (by simp)
        · subst hab
          rcases lt_trichotomy a c with hac | hac | hac
          · simp [hac]
          · subst hac
            rw [if_neg (lt_irrefl a), if_neg (lt_irrefl a)] at hxy hyz ⊢
            exact ih _ _ hxy hyz
          · rw [if_neg (lt_asymm hac), if_pos hac] at hyz
            exact absurd hyz (by simp)
        · rw [if_neg (lt_asymm hab), if_pos hab] at hxy
          exact absurd hxy (by simp)

instance : IsTotal PlanNode nodeLe := by
  constructor
  intro n m
  rcases lt_trichotomy n.depth m.depth with h | h | h
  · left; exact Or.inl h
  · rcases strLeB_total n.id.data m.id.data with h2 | h2
    · left; exact Or.inr ⟨h, h2⟩
    · right; exact Or.inr ⟨h.symm, h2⟩
  · right; exact Or.inl h

instance : IsTrans PlanNode nodeLe := by
  constructor
  intro a b c hab hbc
  rcases hab with h1 | ⟨h1, h1s⟩
  · rcases hbc with h2 | ⟨h2, _⟩
    · exact Or.inl (lt_trans h1 h2)
    · exact Or.inl (h2 ▸ h1)
  · rcases hbc with h2 | ⟨h2, h2s⟩
    · exact Or.inl (h1 ▸ h2)
    · exact Or.inr ⟨h1.trans h2, strLeB_trans _ _ _ h1s h2s⟩

theorem contains_iff_memA (l : List String) (x : String) :
    l.contains x = true ↔ x ∈ l := by
  simp [List.contains, List.elem_iff]

theorem readyPred_iff (answered : List String) (n : PlanNode) :
    readyPred answered n = true ↔
      n.id ∉ answered ∧ ∀ p ∈ n.depends_on, p ∈ answered := by
  simp [readyPred, List.all_eq_true, contains_iff_memA]

theorem mem_ready_iff (g : PlanDAG) (answered : List String) (n : PlanNode) :
    n ∈ ready g answered ↔
      n ∈ valuesOf g ∧ n.id ∉ answered ∧ ∀ p ∈ n.depends_on, p ∈ answered := by
  rw [ready, List.mem_insertionSort, List.mem_filter, readyPred_iff]

theorem ready_eq_nil_of_all {g : PlanDAG} {answered : List String}
    (h : ∀ n ∈ valuesOf g, n.id ∈ answered) : ready g answered = [] := by
  have hf : (valuesOf g).filter (readyPred answered) = [] := by
    rw [List.filter_eq_nil_iff]
    intro n hn hp
    exact absurd (h n hn) ((readyPred_iff answered n).mp hp).1
  rw [ready, hf]
  rfl

theorem foldl_min_le_init : ∀ (l : List ℤ) (a : ℤ), l.foldl min a ≤ a := by
  intro l
  induction l with
  | nil => intro a; exact le_refl a
  | cons x xs ih =>
    intro a
    exact le_trans (ih (min a x)) (min_le_left a x)

theorem foldl_min_le_mem : ∀ (l : List ℤ) (a x : ℤ), x ∈ l → l.foldl min a ≤ x := by
  intro l
  induction l with
  | nil => intro a x hx; exact absurd hx (List.not_mem_nil x)
  | cons y ys ih =>
    intro a x hx
    rcases List.mem_cons.mp hx with h | h
    · subst h
      exact le_trans (foldl_min_le_init ys (min a x)) (min_le_right a x)
    · exact ih (min a y) x h

theorem foldl_min_mem : ∀ (l : List ℤ) (a : ℤ), l.foldl min a = a ∨ l.foldl min a ∈ l := by
  intro l
  induction l with
  | nil => intro a; exact Or.inl rfl
  | cons x xs ih =>
    intro a
    rcases ih (min a x) with h | h
    · rcases min_cases a x with ⟨he, _⟩ | ⟨he, _⟩
      · exact Or.inl (by rw [List.foldl_cons, h, he])
      · exact Or.inr (by rw [List.foldl_cons, h, he]; exact List.mem_cons_self x xs)
    · exact Or.inr (List.mem_cons_of_mem x h)

theorem foldl_max_ge_init : ∀ (l : List ℤ) (a : ℤ), a ≤ l.foldl max a := by
  intro l
  induction l with
  | nil => intro a; exact le_refl a
  | cons x xs ih =>
    intro a
    exact le_trans (le_max_left a x) (ih (max a x))

theorem foldl_max_ge_mem : ∀ (l : List ℤ) (a x : ℤ), x ∈ l → x ≤ l.foldl max a := by
  intro l
  induction l with
  | nil => intro a x hx; exact absurd hx (List.not_mem_nil x)
  | cons y ys ih =>
    intro a x hx
    rcases List.mem_cons.mp hx with h | h
    · subst h
      exact le_trans (le_max_right a x) (foldl_max_ge_init ys (max a x))
    · exact ih (max a y) x h

theorem depth_le_max_depth {g : PlanDAG} {kn : String × PlanNode}
    (h : kn ∈ g.nodes) : kn.2.depth ≤ max_depth g := by
  have hmem : kn.2.depth ∈ (valuesOf g).map (·.depth) := by
    exact List.mem_map.mpr ⟨kn.2, List.mem_map.mpr ⟨kn, h, rfl⟩, rfl⟩
  rw [max_depth]
  rcases hd : (valuesOf g).map (·.depth) with _ | ⟨d, ds⟩
  · rw [hd] at hmem; exact absurd hmem (List.not_mem_nil _)
  · rw [hd] at hmem
    simp only [hd]
    rcases List.mem_cons.mp hmem with h2 | h2
    · subst h2; exact foldl_max_ge_init ds kn.2.depth
    · exact foldl_max_ge_mem ds d kn.2.depth h2

/-- The depth-consistency invariant the planner maintains (§3 of the spec):
positive depths, and every dependency present at strictly lower depth. -/
def DepthConsistent (g : PlanDAG) : Prop :=
  (∀ kn ∈ g.nodes, 1 ≤ kn.2.depth) ∧
  ∀ kn ∈ g.nodes, ∀ p ∈ kn.2.depends_on,
    ∃ mn ∈ g.nodes, mn.2.id = p ∧ mn.2.depth < kn.2.depth

/-- All nodes of depth at most `d` are answered. -/
def SatUpTo (g : PlanDAG) (d : ℤ) (answered : List String) : Prop :=
  ∀ kn ∈ g.nodes, kn.2.depth ≤ d → kn.2.id ∈ answered

theorem stall {g : PlanDAG} {answered : List String} (hg : DepthConsistent g)
    (hnil : ready g answered = []) : ∀ kn ∈ g.nodes, kn.2.id ∈ answered := by
  have H : ∀ t : ℕ, ∀ kn ∈ g.nodes, kn.2.depth.toNat ≤ t → kn.2.id ∈ answered := by
    intro t
    induction t with
    | zero =>
      intro kn hmem hle
      have := hg.1 kn hmem
      omega
    | succ t ih =>
      intro kn hmem hle
      by_contra hin
      have hdepsA : ∀ p ∈ kn.2.depends_on, p ∈ answered := by
        intro p hp
        obtain ⟨mn, hmn, hid, hlt⟩ := hg.2 kn hmem p hp
        have h1 := hg.1 mn hmn
        exact hid ▸ ih mn hmn (by omega)
      have hr : kn.2 ∈ ready g answered :=
        (mem_ready_iff _ _ _).mpr ⟨List.mem_map.mpr ⟨kn, hmem, rfl⟩, hin, hdepsA⟩
      rw [hnil] at hr
      exact absurd hr (List.not_mem_nil _)
  intro kn hmem
  exact H kn.2.depth.toNat kn hmem (le_refl _)

theorem step_sat {g : PlanDAG} {d : ℤ} {answered : List String}
    (hg : DepthConsistent g) (hsat : SatUpTo g d answered) :
    SatUpTo g (d + 1) (stepAnswered g answered) := by
  intro kn hmem hdle
  by_cases hin : kn.2.id ∈ answered
  · exact List.mem_append_left _ hin
  · have hd1 : kn.2.depth = d + 1 := by
      have h1 : ¬ kn.2.depth ≤ d := fun hle => hin (hsat kn hmem hle)
      omega
    have hdepsA : ∀ p ∈ kn.2.depends_on, p ∈ answered := by
      intro p hp
      obtain ⟨mn, hmn, hid, hlt⟩ := hg.2 kn hmem p hp
      exact hid ▸ hsat mn hmn (by omega)
    have hready : kn.2 ∈ ready g answered :=
      (mem_ready_iff g answered kn.2).mpr
        ⟨List.mem_map.mpr ⟨kn, hmem, rfl⟩, hin, hdepsA⟩
    have hge : ∀ n ∈ ready g answered, d + 1 ≤ n.depth := by
      intro n hn
      obtain ⟨hnv, hnin, _⟩ := (mem_ready_iff g answered n).mp hn
      obtain ⟨pn, hpn, hpe⟩ := List.mem_map.mp hnv
      subst hpe
      by_contra hlt
      exact hnin (hsat pn hpn (by omega))
    apply List.mem_append_right
    rw [batchIds]
    rcases hr : ready g answered with _ | ⟨n0, rest⟩
    · rw [hr] at hready; exact absurd hready (List.not_mem_nil _)
    · simp only []
      have hconv : rest.foldl (fun m k => min m k.depth) n0.depth =
          (rest.map (·.depth)).foldl min n0.depth := (List.foldl_map _ _ _ _).symm
      have hdge : d + 1 ≤ rest.foldl (fun m k => min m k.depth) n0.depth := by
        rw [hconv]
        rcases foldl_min_mem (rest.map (·.depth)) n0.depth with h | h
        · rw [h]; exact hge n0 (hr ▸ List.mem_cons_self n0 rest)
        · obtain ⟨x, hx, he⟩ := List.mem_map.mp h
          rw [← he]
          exact hge x (hr ▸ List.mem_cons_of_mem n0 hx)
      have hmemlist : kn.2 ∈ n0 :: rest := hr ▸ hready
      have hdle2 : rest.foldl (fun m k => min m k.depth) n0.depth ≤ kn.2.depth := by
        rw [hconv]
        rcases List.mem_cons.mp hmemlist with h | h
        · rw [h]; exact foldl_min_le_init _ _
        · exact foldl_min_le_mem _ _ _ (List.mem_map.mpr ⟨kn.2, h, rfl⟩)
      have hdeq : rest.foldl (fun m k => min m k.depth) n0.depth = kn.2.depth := by
        omega
      apply List.mem_map.mpr
      refine ⟨kn.2, List.mem_filter.mpr ⟨hmemlist, ?_⟩, rfl⟩
      simp [hdeq]

theorem loop_sat {g : PlanDAG} (hg : DepthConsistent g) :
    ∀ (k : ℕ) (d : ℤ) (answered : List String), SatUpTo g d answered →
      SatUpTo g (d + k) (loopAnswered g k answered) := by
  intro k
  induction k with
  | zero =>
    intro d answered hsat
    simpa using hsat
  | succ k ih =>
    intro d answered hsat
    rw [loopAnswered]
    split
    · intro kn hmem _
      exact stall hg (by assumption) kn hmem
    · have h2 := ih (d + 1) (stepAnswered g answered) (step_sat hg hsat)
      intro kn hmem hle
      exact h2 kn hmem (by omega)

theorem addRanks_apply : ∀ (ids : List ℕ) (start : ℕ) (f : ℕ → ℚ) (x : ℕ),
    addRanks ids start f x = f x + contribSum x ids start := by
  intro ids
  induction ids with
  | nil =>
    intro start f x
    simp [addRanks, contribSum]
  | cons c rest ih =>
    intro start f x
    rw [addRanks, ih, contribSum]
    by_cases hx : x = c
    · subst hx
      simp only [if_pos rfl, eq_self_iff_true, if_true]
      ring
    · rw [if_neg hx, if_neg (fun h : c = x => hx h.symm)]
      ring

theorem contribSum_not_mem : ∀ (ids : List ℕ) (start : ℕ) {x : ℕ}, x ∉ ids →
    contribSum x ids start = 0 := by
  intro ids
  induction ids with
  | nil => intro start x _; rfl
  | cons c rest ih =>
    intro start x hx
    rw [contribSum, ih (start + 1) (fun h => hx (List.mem_cons_of_mem c h)),
      if_neg (fun h : c = x => hx (h ▸ List.mem_cons_self c rest))]
    ring

theorem lookupA_setAssoc_self {l : List (String × String)} {k v : String}
    (h : (lookupA l k).isSome) : lookupA (setAssoc l k v) k = some v := by
  induction l with
  | nil => simp [lookupA] at h
  | cons kv rest ih =>
    by_cases he : kv.1 = k
    · simp [setAssoc, lookupA, he]
    · rw [lookupA, if_neg he] at h
      rw [setAssoc] at ih ⊢
      simp only [List.map_cons, if_neg he]
      rw [lookupA, if_neg he]
      exact ih h

theorem lookupA_setAssoc_ne {l : List (String × String)} {k v q : String}
    (h : q ≠ k) : lookupA (setAssoc l k v) q = lookupA l q := by
  induction l with
  | nil => rfl
  | cons kv rest ih =>
    rw [setAssoc, List.map_cons]
    by_cases he : kv.1 = k
    · rw [if_pos he]
      have hne : ¬ kv.1 = q := fun hq => h (hq ▸ he)
      rw [lookupA, lookupA, if_neg hne, if_neg hne]
      exact ih
    · rw [if_neg he, lookupA, lookupA]
      by_cases hq : kv.1 = q
      · rw [if_pos hq, if_pos hq]
      · rw [if_neg hq, if_neg hq]
        exact ih

theorem format_change_ne_empty (delta : ℚ) (pct : PyF) :
    format_change delta pct ≠ "" := by
  intro h
  have h2 := congrArg String.data h
  unfold format_change at h2
  have hpd : ("%)" : String).data = ['%', ')'] := rfl
  simp only [String.data_append, hpd] at h2
  simp at h2

theorem takeWhile_isDigit_eq_nil {m : List Char} (h : ∀ c ∈ m, c.isDigit = false) :
    m.takeWhile Char.isDigit = [] := by
  cases m with
  | nil => rfl
  | cons c r =>
    rw [List.takeWhile_cons, h c (List.mem_cons_self c r)]
    rfl

theorem grabDigits13_nil {m l : List Char} (hm : m ⊆ l)
    (h : ∀ c ∈ l, c.isDigit = false) : (grabDigits13 m).1 = [] := by
  rw [grabDigits13, takeWhile_isDigit_eq_nil (fun c hc => h c (hm hc))]
  rfl

theorem matchAt_eq_none {l : List Char} (h : ∀ c ∈ l, c.isDigit = false) :
    matchAt l = none := by
  have k1 := grabDigits13_nil (fun _ hc => hc) h
  have k2 := grabDigits13_nil (l.drop_subset 1) h
  have k3 := grabDigits13_nil (((l.drop 1).drop_subset 1).trans (l.drop_subset 1)) h
  simp only [matchAt]
  split_ifs <;> simp_all

theorem searchNum_eq_none {l : List Char} (h : ∀ c ∈ l, c.isDigit = false) :
    searchNum l = none := by
  induction l with
  | nil => rfl
  | cons c r ih =>
    rw [searchNum, matchAt_eq_none h]
    exact ih fun d hd => h d (List.mem_cons_of_mem c hd)

/-- The structural invariant of a heuristic plan: a grounding node `"1.1"` at
depth 1 with no dependencies, a depth-2 node depending exactly on `"1.1"`,
and every dependency present as a key at strictly lower depth. -/
@[reducible] def planInv (g : PlanDAG) : Prop :=
  (∃ kn ∈ g.nodes, kn.1 = "1.1" ∧ kn.2.id = "1.1" ∧ kn.2.depth = 1 ∧
    kn.2.depends_on = []) ∧
  (∃ kn ∈ g.nodes, kn.2.depth = 2 ∧ kn.2.depends_on = ["1.1"]) ∧
  ∀ kn ∈ g.nodes, ∀ p ∈ kn.2.depends_on,
    ∃ mn ∈ g.nodes, mn.1 = p ∧ mn.2.depth < kn.2.depth

theorem heuristicCore_inv : ∀ b1 b2 b3 bc : Bool, planInv (heuristicCore b1 b2 b3 bc) := by
  decide

/-! ### The claims -/

/-- C1 (amended): `_to_float` strips a trailing percent sign without dividing
by 100, so `"10%"` parses to `10.0` and `numeric_match("10%", "0.10")` at the
default tolerances is false, while `numeric_match("10%", "10")` is true;
`numeric_match("$1,234", "1234.0")` is true and `numeric_match("foo", "bar")`
is false. -/
theorem numeric_match_percent_strip :
    to_float "10%" = some 10 ∧
    to_float "0.10" = some (1 / 10) ∧
    numeric_matchD "10%" "0.10" = false ∧
    numeric_matchD "10%" "10" = true ∧
    numeric_matchD "$1,234" "1234.0" = true ∧
    numeric_matchD "foo" "bar" = false :=
  ⟨by decide, by decide, by decide, by decide, by decide, by decide⟩

/-- C1 counterexample: contrary to the claim, `numeric_match("10%", "0.10")`
with the default tolerances returns false. -/
theorem numeric_match_percent_cex : numeric_matchD "10%" "0.10" = false := by
  decide

/-- C2: the deterministic compute step overwrites `answers["3.1"]` with
`format_change` of `compute_change` of the first two sorted `2.*` values when
`"3.1"` is present, at least two `2.*` keys exist and both values parse,
leaving every other key unchanged; otherwise it leaves `answers` unchanged. -/
theorem compute_node_spec (answers : List (String × String)) :
    (∀ (k0 k1 : String) (ks : List String) (a b : ℚ),
      (lookupA answers "3.1").isSome = true →
      metricKeysSorted answers = some (k0 :: k1 :: ks) →
      parse_number ((lookupA answers k0).getD "") = some a →
      parse_number ((lookupA answers k1).getD "") = some b →
      compute_node answers =
        Except.ok (setAssoc answers "3.1"
          (format_change (compute_change a b).1 (compute_change a b).2)) ∧
      lookupA (setAssoc answers "3.1"
          (format_change (compute_change a b).1 (compute_change a b).2)) "3.1" =
        some (format_change (compute_change a b).1 (compute_change a b).2) ∧
      ∀ k, k ≠ "3.1" →
        lookupA (setAssoc answers "3.1"
          (format_change (compute_change a b).1 (compute_change a b).2)) k =
          lookupA answers k) ∧
    ((lookupA answers "3.1" = none ∨
      metricKeysSorted answers = some [] ∨
      (∃ k0, metricKeysSorted answers = some [k0]) ∨
      (∃ k0 k1 ks, metricKeysSorted answers = some (k0 :: k1 :: ks) ∧
        (parse_number ((lookupA answers k0).getD "") = none ∨
         parse_number ((lookupA answers k1).getD "") = none))) →
      compute_node answers = Except.ok answers) := by
  constructor
  · intro k0 k1 ks a b h31 hks ha hb
    obtain ⟨v31, hv31⟩ := Option.isSome_iff_exists.mp h31
    have hmcc : maybe_compute_change answers =
        Except.ok (some (format_change (compute_change a b).1 (compute_change a b).2)) := by
      simp [maybe_compute_change, hv31, hks, ha, hb]
    refine ⟨?_, lookupA_setAssoc_self h31, fun k hk => lookupA_setAssoc_ne hk⟩
    rw [compute_node, hmcc]
    simp [format_change_ne_empty]
  · intro hneg
    rcases hneg with h31 | hks | ⟨k0, hks⟩ | ⟨k0, k1, ks, hks, hpar⟩
    · simp [compute_node, maybe_compute_change, h31]
    · rcases hl : lookupA answers "3.1" with _ | v <;>
        simp [compute_node, maybe_compute_change, hl, hks]
    · rcases hl : lookupA answers "3.1" with _ | v <;>
        simp [compute_node, maybe_compute_change, hl, hks]
    · rcases hl : lookupA answers "3.1" with _ | v
      · simp [compute_node, maybe_compute_change, hl]
      · rcases hpar with hp | hp
        · simp [compute_node, maybe_compute_change, hl, hks, hp]
        · rcases hpa : parse_number ((lookupA answers k0).getD "") with _ | a <;>
            simp [compute_node, maybe_compute_change, hl, hks, hp, hpa]

/-- C2 witness: the end-to-end example with metric values 100 and 80. -/
theorem compute_node_spec_witness :
    compute_node [("1.1", "g"), ("2.1", "100"), ("2.2", "80"), ("3.1", "x")] =
      Except.ok (setAssoc [("1.1", "g"), ("2.1", "100"), ("2.2", "80"), ("3.1", "x")]
        "3.1" (format_change (compute_change 100 80).1 (compute_change 100 80).2)) :=
  ((compute_node_spec [("1.1", "g"), ("2.1", "100"), ("2.2", "80"), ("3.1", "x")]).1
    "2.1" "2.2" [] 100 80 (by decide) (by decide) (by decide) (by decide)).1

/-- C3 (amended): for a depth-consistent plan graph (positive depths, every
dependency present at strictly lower depth — the invariant the spec states
for PlanNode), the depth-batched loop answers every node within
`max_depth()` iterations, at which point `ready` is empty. -/
theorem loop_depth_bound (g : PlanDAG) (hg : DepthConsistent g) :
    (∀ kn ∈ g.nodes, kn.2.id ∈ loopAnswered g (max_depth g).toNat []) ∧
    ready g (loopAnswered g (max_depth g).toNat []) = [] := by
  have h0 : SatUpTo g 0 [] := by
    intro kn hmem hle
    exact absurd (hg.1 kn hmem) (by omega)
  have hsat := loop_sat hg (max_depth g).toNat 0 [] h0
  have hall : ∀ kn ∈ g.nodes, kn.2.id ∈ loopAnswered g (max_depth g).toNat [] := by
    intro kn hmem
    apply hsat kn hmem
    have h1 := depth_le_max_depth hmem
    have h2 := Int.self_le_toNat (max_depth g)
    omega
  refine ⟨hall, ready_eq_nil_of_all ?_⟩
  intro n hn
  obtain ⟨kn, hkn, he⟩ := List.mem_map.mp hn
  exact he ▸ hall kn hkn

/-- C3 witness: the bound applied to a concrete depth-consistent graph. -/
theorem loop_depth_bound_witness :
    (∀ kn ∈ chainDAG.nodes, kn.2.id ∈ loopAnswered chainDAG (max_depth chainDAG).toNat []) ∧
    ready chainDAG (loopAnswered chainDAG (max_depth chainDAG).toNat []) = [] :=
  loop_depth_bound chainDAG ⟨by decide, by decide⟩

/-- C3 counterexample: an acyclic graph (it admits a topological ranking)
whose dependent node sits at the same depth as its parent; after
`max_depth() = 1` iterations node `"B"` is still unanswered. -/
theorem loop_depth_bound_cex :
    (∃ f : String → ℕ, ∀ kn ∈ flatDAG.nodes, ∀ p ∈ kn.2.depends_on,
      f p < f kn.2.id) ∧
    ("B", { id := "B", text := "", depth := 1, depends_on := ["A"] }) ∈ flatDAG.nodes ∧
    "B" ∉ loopAnswered flatDAG (max_depth flatDAG).toNat [] :=
  ⟨⟨fun s => if s = "B" then 1 else 0, by decide⟩, by decide, by decide⟩

/-- C4: `ready` returns exactly the nodes that are unanswered with all
dependencies answered, sorted by depth then id. -/
theorem ready_spec (g : PlanDAG) (answered : List String) :
    List.Sorted nodeLe (ready g answered) ∧
    (ready g answered).Perm ((valuesOf g).filter (readyPred answered)) ∧
    ∀ n : PlanNode, n ∈ ready g answered ↔
      n ∈ valuesOf g ∧ n.id ∉ answered ∧ ∀ p ∈ n.depends_on, p ∈ answered :=
  ⟨List.sorted_insertionSort nodeLe _, List.perm_insertionSort nodeLe _,
    fun n => mem_ready_iff g answered n⟩

/-- C4 witness: sortedness of a concrete ready list. -/
theorem ready_spec_witness :
    List.Sorted nodeLe (ready chainDAG []) ∧ ready chainDAG [] =
      [({ id := "1.1", text := "", depth := 1, depends_on := [] } : PlanNode)] :=
  ⟨(ready_spec chainDAG []).1, by decide⟩

/-- C5: reciprocal rank fusion sums `1/(60+rank)` contributions keyed by
chunk identity across both ranked lists; a chunk ranked first in both lists
scores `2/61`, strictly above the `1/61` of a chunk ranked first in only one
list. -/
theorem rrf_fusion_spec :
    (∀ (dense sparse : List ℕ) (ci : ℕ),
      fusedScore dense sparse ci = contribSum ci dense 1 + contribSum ci sparse 1) ∧
    (∀ (d s : List ℕ) (c : ℕ), c ∉ d → c ∉ s →
      fusedScore (c :: d) (c :: s) c = 2 / 61) ∧
    (∀ (d s : List ℕ) (c : ℕ), c ∉ d → c ∉ s →
      fusedScore (c :: d) s c = 1 / 61 ∧ fusedScore d (c :: s) c = 1 / 61) ∧
    (1 : ℚ) / 61 < 2 / 61 := by
  have hgen : ∀ (dense sparse : List ℕ) (ci : ℕ),
      fusedScore dense sparse ci = contribSum ci dense 1 + contribSum ci sparse 1 := by
    intro dense sparse ci
    rw [fusedScore, addRanks_apply, addRanks_apply]
    ring
  refine ⟨hgen, ?_, ?_, by norm_num⟩
  · intro d s c hd hs
    rw [hgen, contribSum, contribSum, if_pos rfl,
      contribSum_not_mem _ _ hd, contribSum_not_mem _ _ hs]
    norm_num [rrf]
  · intro d s c hd hs
    constructor
    · rw [hgen, contribSum, if_pos rfl, contribSum_not_mem _ _ hd,
        contribSum_not_mem _ _ hs]
      norm_num [rrf]
    · rw [hgen, contribSum, if_pos rfl, contribSum_not_mem _ _ hd,
        contribSum_not_mem _ _ hs]
      norm_num [rrf]

/-- C5 witness: a chunk ranked first in both lists scores `2/61`. -/
theorem rrf_fusion_witness : fusedScore [5] [5] 5 = 2 / 61 :=
  rrf_fusion_spec.2.1 [] [] 5 (List.not_mem_nil 5) (List.not_mem_nil 5)

/-- C6: `parse_number` round-trips sign, percent and grouping —
`"(1,234.50)"` parses to `-1234.50` and `"12.5%"` to `0.125` — and returns
null rather than raising when the input contains no numeric token (every
token of the pattern contains a digit, so a digit-free string has none). -/
theorem parse_number_spec :
    parse_number "(1,234.50)" = some (-1234.5) ∧
    parse_number "12.5%" = some 0.125 ∧
    ∀ s : String, (∀ c ∈ s.data, c.isDigit = false) → parse_number s = none := by
  refine ⟨by decide, by decide, ?_⟩
  intro s hs
  rw [parse_number, searchNum_eq_none hs]

/-- C6 witness: a digit-free string parses to null. -/
theorem parse_number_spec_witness : parse_number "no numbers here" = none :=
  parse_number_spec.2.2 "no numbers here" (by decide)

/-- C7 (amended): the completion check is true iff a plan graph is present,
its node set is nonempty, and every node id is a key of `answers`; for an
empty node set it returns false, not vacuous truth. -/
theorem is_complete_spec :
    ∀ (dag : Option PlanDAG) (answers : List (String × String)),
      is_complete dag answers = true ↔
        ∃ g, dag = some g ∧ g.nodes ≠ [] ∧
          ∀ k ∈ g.nodes.map (·.1), k ∈ keysOf answers := by
  intro dag answers
  cases dag with
  | none => simp [is_complete]
  | some g =>
    by_cases hn : g.nodes = []
    · simp [is_complete, hn]
    · simp [is_complete, hn, List.all_eq_true, contains_iff_memA]

/-- C7 counterexample: on the empty node set the inclusion condition holds
vacuously, yet the check returns false. -/
theorem is_complete_cex :
    is_complete (some ⟨[]⟩) [] = false ∧
    ∀ k ∈ (⟨[]⟩ : PlanDAG).nodes.map (·.1), k ∈ keysOf [] :=
  ⟨rfl, by decide⟩

/-- C7 witness: the characterization applied at a concrete graph. -/
theorem is_complete_spec_witness :
    is_complete (some chainDAG)
      [("1.1", "a"), ("2.1", "b"), ("2.2", "c"), ("3.1", "d")] = true :=
  (is_complete_spec (some chainDAG)
    [("1.1", "a"), ("2.1", "b"), ("2.2", "c"), ("3.1", "d")]).mpr
    ⟨chainDAG, rfl, by decide, by decide⟩

/-- C8: the engine replaces the final answer exactly when the validator
verdict is `"fail"` with a non-empty corrected string; otherwise the original
final answer stands. -/
theorem validate_node_spec :
    ∀ (res : List (String × String)) (finalAnswer : String),
      (∀ c : String, lookupA res "verdict" = some "fail" →
        lookupA res "corrected" = some c → c ≠ "" →
        validate_node res finalAnswer = c) ∧
      ((lookupA res "verdict" ≠ some "fail" ∨ lookupA res "corrected" = none ∨
        lookupA res "corrected" = some "") →
        validate_node res finalAnswer = finalAnswer) := by
  intro res finalAnswer
  constructor
  · intro c hv hc hne
    rw [validate_node, if_pos hv, hc]
    simp [hne]
  · intro h
    rcases h with hv | hc | hc
    · rw [validate_node, if_neg hv]
    · rw [validate_node]
      by_cases hv : lookupA res "verdict" = some "fail"
      · rw [if_pos hv, hc]
      · rw [if_neg hv]
    · rw [validate_node]
      by_cases hv : lookupA res "verdict" = some "fail"
      · rw [if_pos hv, hc]
        simp
      · rw [if_neg hv]

/-- C8 witness: a fail verdict with corrected answer X replaces the final
answer by exactly X. -/
theorem validate_node_spec_witness :
    validate_node [("verdict", "fail"), ("corrected", "X")] "orig" = "X" :=
  (validate_node_spec [("verdict", "fail"), ("corrected", "X")] "orig").1
    "X" rfl rfl (by decide)

/-- C9: `compute_change` pairs `delta = curr - prev` with `pct = delta/prev`
when `|prev| > 1e-12` (in particular `prev` is then nonzero, so the division
is well-defined) and with infinity otherwise; the function is total. -/
theorem compute_change_spec :
    ∀ curr prev : ℚ,
      (compute_change curr prev).1 = curr - prev ∧
      ((1 : ℚ) / 10 ^ 12 < |prev| →
        prev ≠ 0 ∧ (compute_change curr prev).2 = PyF.fin ((curr - prev) / prev)) ∧
      (¬ (1 : ℚ) / 10 ^ 12 < |prev| → (compute_change curr prev).2 = PyF.inf) := by
  intro curr prev
  refine ⟨rfl, ?_, ?_⟩
  · intro h
    constructor
    · intro h0
      rw [h0] at h
      norm_num at h
    · simp only [compute_change]
      rw [if_pos h]
  · intro h
    simp only [compute_change]
    rw [if_neg h]

/-- C9 witness: both branches at concrete inputs. -/
theorem compute_change_spec_witness :
    (compute_change 100 80).2 = PyF.fin ((100 - 80) / 80) ∧
    (compute_change 5 0).2 = PyF.inf :=
  ⟨((compute_change_spec 100 80).2.1 (by norm_num)).2,
   (compute_change_spec 5 0).2.2 (by norm_num)⟩

/-- C10: every heuristic plan satisfies the structural invariant: grounding
node `"1.1"` at depth 1 with no dependencies, a depth-2 node depending
exactly on `"1.1"`, every referenced dependency present as a key, and every
dependency at strictly lower depth than its dependent (so the graph is
acyclic). -/
theorem heuristic_plan_invariant : ∀ question : String,
    planInv (heuristic_plan question) := by
  intro question
  exact heuristicCore_inv _ _ _ _

/-- C10 witness: the invariant at a concrete question. -/
theorem heuristic_plan_invariant_witness :
    planInv (heuristic_plan "What was the year-over-year change in revenue?") :=
  heuristic_plan_invariant "What was the year-over-year change in revenue?"

end PlanRAG
